import Mathlib

/-!
Verification of the recipe-app-api repository: a shallow embedding of
`app/recipe/serializers.py` and `app/recipe/views.py` together with the
Django ORM operations they invoke (`get_or_create`, `create`, `clear`,
`add`, `filter`, `order_by`), and proofs of the specified properties of
the nested-serializer reconciliation logic, the per-user querysets and
the exposed view actions.

Users are identified by their primary key (a natural number).  Database
rows are lists; many-to-many association tables are lists of
(recipe id, related id) pairs.  The ORM semantics modelled here
(`get_or_create` matching on the given keyword fields, `add` being
idempotent, `clear` dropping the instance's rows from the association
table, `filter`/`order_by` on querysets) follow the Django documentation
for those calls, which the repository uses unchanged.
-/

namespace RecipeApp

/-- A row of the `Tag` model.  Modelled from the spec: `core/models.py` is
not among the source files; the spec describes a Tag as "name, owned by
one user, many-to-many with recipes". -/
structure Tag where
  id : Nat
  user : Nat
  name : String
deriving DecidableEq, Repr

/-- A row of the `Ingredient` model.  Modelled from the spec: an
Ingredient is "name, owned by one user, many-to-many with recipes". -/
structure Ingredient where
  id : Nat
  user : Nat
  name : String
deriving DecidableEq, Repr

/-- A row of the `Recipe` model.  Modelled from the spec: "a Recipe
(title, time estimate, price, link, optional description/image, owned by
one user)".  The price is in cents to avoid decimals. -/
structure Recipe where
  id : Nat
  user : Nat
  title : String
  time_minutes : Nat
  price : Int
  link : String
  description : String
  image : Option String
deriving DecidableEq, Repr

/-- The database state: the three model tables, the two many-to-many
association tables (pairs of (recipe id, tag id) resp.
(recipe id, ingredient id)), and the next auto-increment primary key for
each model. -/
structure Db where
  tags : List Tag
  ingredients : List Ingredient
  recipes : List Recipe
  recipeTags : List (Nat × Nat)
  recipeIngredients : List (Nat × Nat)
  nextTagId : Nat
  nextIngredientId : Nat
  nextRecipeId : Nat
deriving DecidableEq, Repr

/-- `Tag.objects.get_or_create(user=auth_user, name=n)`: return the first
existing row matching both keyword fields, or insert a fresh row. -/
def Tag.getOrCreate (db : Db) (u : Nat) (n : String) : Tag × Db :=
  match db.tags.find? (fun t => t.user == u && t.name == n) with
  | some t => (t, db)
  | none =>
      let t : Tag := ⟨db.nextTagId, u, n⟩
      (t, { db with tags := db.tags ++ [t], nextTagId := db.nextTagId + 1 })

/-- `Ingredient.objects.get_or_create(user=auth_user, name=n)`. -/
def Ingredient.getOrCreate (db : Db) (u : Nat) (n : String) : Ingredient × Db :=
  match db.ingredients.find? (fun i => i.user == u && i.name == n) with
  | some i => (i, db)
  | none =>
      let i : Ingredient := ⟨db.nextIngredientId, u, n⟩
      (i, { db with ingredients := db.ingredients ++ [i],
                    nextIngredientId := db.nextIngredientId + 1 })

/-- `related.add(obj)` on a many-to-many manager: idempotent insertion of
the (recipe id, related id) pair into the association table. -/
def m2mAdd (links : List (Nat × Nat)) (rid oid : Nat) : List (Nat × Nat) :=
  if (rid, oid) ∈ links then links else links ++ [(rid, oid)]

/-- `related.clear()` on a many-to-many manager: drop every association
row of the given recipe. -/
def m2mClear (links : List (Nat × Nat)) (rid : Nat) : List (Nat × Nat) :=
  links.filter (fun p => !(p.1 == rid))

namespace RecipeSerializer

/-- `RecipeSerializer._get_or_create_tags(tags, recipe)`: for each
submitted tag payload (a name, since `id` is read-only), get-or-create
the (auth_user, name) tag and add it to the recipe. -/
def get_or_create_tags (u : Nat) (tags : List String) (rid : Nat) (db : Db) : Db :=
  match tags with
  | [] => db
  | n :: rest =>
      let (tag_obj, db1) := Tag.getOrCreate db u n
      let db2 := { db1 with recipeTags := m2mAdd db1.recipeTags rid tag_obj.id }
      get_or_create_tags u rest rid db2

/-- `RecipeSerializer._get_or_create_ingredients(ingredients, recipe)`. -/
def get_or_create_ingredients (u : Nat) (ingredients : List String) (rid : Nat)
    (db : Db) : Db :=
  match ingredients with
  | [] => db
  | n :: rest =>
      let (ingredient_obj, db1) := Ingredient.getOrCreate db u n
      let db2 := { db1 with
        recipeIngredients := m2mAdd db1.recipeIngredients rid ingredient_obj.id }
      get_or_create_ingredients u rest rid db2

/-- The validated data of a recipe create request.  `tags` and
`ingredients` are declared with `required=False`, so their key may be
absent (`none`); `description` comes from the detail serializer. -/
structure CreateData where
  title : String
  time_minutes : Nat
  price : Int
  link : String
  description : String
  tags : Option (List String)
  ingredients : Option (List String)
deriving DecidableEq, Repr

/-- `RecipeSerializer.create(validated_data)` with the owner `u` merged in
by `RecipeViewSet.perform_create`'s `serializer.save(user=request.user)`:
pop `tags` and `ingredients` (defaulting to `[]`), create the recipe from
the remaining fields, then get-or-create both related collections. -/
def create (u : Nat) (cd : CreateData) (db : Db) : Recipe × Db :=
  let tags := cd.tags.getD []
  let ingredients := cd.ingredients.getD []
  let recipe : Recipe :=
    { id := db.nextRecipeId, user := u, title := cd.title,
      time_minutes := cd.time_minutes, price := cd.price, link := cd.link,
      description := cd.description, image := none }
  let db1 := { db with recipes := db.recipes ++ [recipe],
                       nextRecipeId := db.nextRecipeId + 1 }
  let db2 := get_or_create_tags u tags recipe.id db1
  let db3 := get_or_create_ingredients u ingredients recipe.id db2
  (recipe, db3)

/-- The validated data of a recipe update request: every key may be
absent.  `tags = none` / `ingredients = none` means the key was not in
the payload (the serializer pops them with default `None`). -/
structure UpdateData where
  title : Option String
  time_minutes : Option Nat
  price : Option Int
  link : Option String
  description : Option String
  tags : Option (List String)
  ingredients : Option (List String)
deriving DecidableEq, Repr

/-- The `for attr, value in validated_data.items(): setattr(instance, attr,
value)` loop over the scalar fields remaining after the two pops. -/
def setAttrs (r : Recipe) (ud : UpdateData) : Recipe :=
  { r with
    title := ud.title.getD r.title,
    time_minutes := ud.time_minutes.getD r.time_minutes,
    price := ud.price.getD r.price,
    link := ud.link.getD r.link,
    description := ud.description.getD r.description }

/-- `RecipeSerializer.update(instance, validated_data)`: pop `tags` and
`ingredients` with default `None`; when a popped value is not `None`,
clear that relation of the instance and get-or-create the submitted
items; then set the remaining attributes and save the instance. -/
def update (u : Nat) (rid : Nat) (ud : UpdateData) (db : Db) : Db :=
  let db1 :=
    match ud.tags with
    | none => db
    | some tags =>
        get_or_create_tags u tags rid
          { db with recipeTags := m2mClear db.recipeTags rid }
  let db2 :=
    match ud.ingredients with
    | none => db1
    | some ingredients =>
        get_or_create_ingredients u ingredients rid
          { db1 with recipeIngredients := m2mClear db1.recipeIngredients rid }
  { db2 with recipes := db2.recipes.map (fun r => if r.id = rid then setAttrs r ud else r) }

end RecipeSerializer

/-- `RecipeImageSerializer`: its `Meta` lists fields `id` (read-only) and
`image`, with `extra_kwargs` making `image` required. -/
def RecipeImageSerializer.fields : List String := ["id", "image"]

/-- `extra_kwargs = \x7b'image': \x7b'required': True\x7d\x7d`. -/
def RecipeImageSerializer.imageRequired : Bool := true

namespace RecipeViewSet

/-- `RecipeViewSet.get_queryset`: the recipes of the authenticated user,
ordered by descending id (`order_by('-id')`). -/
def get_queryset (db : Db) (u : Nat) : List Recipe :=
  (db.recipes.filter (fun r => r.user == u)).mergeSort
    (fun a b => decide (b.id ≤ a.id))

/-- `RecipeViewSet.perform_create`: `serializer.save(user=self.request.user)`. -/
def perform_create (u : Nat) (cd : RecipeSerializer.CreateData) (db : Db) :
    Recipe × Db :=
  RecipeSerializer.create u cd db

/-- The actions a `ModelViewSet` exposes: the five DRF CRUD mixins.
`RecipeViewSet` subclasses `viewsets.ModelViewSet` and adds no extra
`@action`; in particular no upload-image action is defined. -/
def actions : List String :=
  ["list", "create", "retrieve", "update", "partial_update", "destroy"]

end RecipeViewSet

namespace TagViewSet

/-- `TagViewSet.get_queryset`: the tags of the authenticated user, ordered
by descending name (`order_by('-name')`). -/
def get_queryset (db : Db) (u : Nat) : List Tag :=
  (db.tags.filter (fun t => t.user == u)).mergeSort
    (fun a b => decide (b.name ≤ a.name))

/-- `TagViewSet.perform_create`: `serializer.save(user=self.request.user)`,
i.e. `Tag.objects.create(user=request.user, name=n)`. -/
def perform_create (u : Nat) (n : String) (db : Db) : Tag × Db :=
  let t : Tag := ⟨db.nextTagId, u, n⟩
  (t, { db with tags := db.tags ++ [t], nextTagId := db.nextTagId + 1 })

/-- The actions `TagViewSet` exposes: it subclasses only
`mixins.ListModelMixin` and `viewsets.GenericViewSet`, so the router
generates the `list` action and nothing else — no create, retrieve,
update or destroy action exists, and no detail route is registered. -/
def actions : List String := ["list"]

end TagViewSet

/-- Modelled from the spec: request authentication is delegated to the
external framework ("auth-token checking ... is framework plumbing");
`TokenAuthentication` plus `IsAuthenticated` reject a request carrying no
valid token with HTTP 401 before the handler runs, as the repository's
`test_auth_required` records.  `authUser` is the authenticated user of
the request, `none` when no valid credentials were presented. -/
def requireAuth (authUser : Option Nat) (handler : Nat → Db → Nat × Db)
    (db : Db) : Nat × Db :=
  match authUser with
  | none => (401, db)
  | some u => handler u db

/-- `GET` on the tag list endpoint. -/
def tagListEndpoint (authUser : Option Nat) (db : Db) : Nat × Db :=
  requireAuth authUser (fun _ d => (200, d)) db

/-- `GET` on the recipe list endpoint. -/
def recipeListEndpoint (authUser : Option Nat) (db : Db) : Nat × Db :=
  requireAuth authUser (fun _ d => (200, d)) db

/-- `POST` on the recipe list endpoint. -/
def recipeCreateEndpoint (authUser : Option Nat)
    (cd : RecipeSerializer.CreateData) (db : Db) : Nat × Db :=
  requireAuth authUser (fun u d => (201, (RecipeViewSet.perform_create u cd d).2)) db

/-- `GET` on a recipe detail endpoint; `get_object` looks the id up in the
user-filtered queryset and yields 404 when it is not there. -/
def recipeRetrieveEndpoint (authUser : Option Nat) (rid : Nat) (db : Db) :
    Nat × Db :=
  requireAuth authUser
    (fun u d =>
      match d.recipes.find? (fun r => r.id == rid && r.user == u) with
      | some _ => (200, d)
      | none => (404, d)) db

/-- `PATCH` on a recipe detail endpoint. -/
def recipeUpdateEndpoint (authUser : Option Nat) (rid : Nat)
    (ud : RecipeSerializer.UpdateData) (db : Db) : Nat × Db :=
  requireAuth authUser
    (fun u d =>
      match d.recipes.find? (fun r => r.id == rid && r.user == u) with
      | some _ => (200, RecipeSerializer.update u rid ud d)
      | none => (404, d)) db

/-- `DELETE` on a recipe detail endpoint: the row is removed together with
its many-to-many association rows. -/
def recipeDestroyEndpoint (authUser : Option Nat) (rid : Nat) (db : Db) :
    Nat × Db :=
  requireAuth authUser
    (fun u d =>
      match d.recipes.find? (fun r => r.id == rid && r.user == u) with
      | some _ =>
          (204, { d with
            recipes := d.recipes.filter (fun r => !(r.id == rid && r.user == u)),
            recipeTags := m2mClear d.recipeTags rid,
            recipeIngredients := m2mClear d.recipeIngredients rid })
      | none => (404, d)) db

/-! ### The (user, name) uniqueness invariant and helper lemmas -/

/-- No two tag rows share the same (user, name) pair. -/
def tagsUniq (l : List Tag) : Prop :=
  l.Pairwise (fun a b => ¬(a.user = b.user ∧ a.name = b.name))

/-- No two ingredient rows share the same (user, name) pair. -/
def ingredientsUniq (l : List Ingredient) : Prop :=
  l.Pairwise (fun a b => ¬(a.user = b.user ∧ a.name = b.name))

/-- How many tag rows carry the given (user, name) pair. -/
def tagNameCount (l : List Tag) (u : Nat) (n : String) : Nat :=
  (l.filter (fun t => t.user == u && t.name == n)).length

/-- How many ingredient rows carry the given (user, name) pair. -/
def ingredientNameCount (l : List Ingredient) (u : Nat) (n : String) : Nat :=
  (l.filter (fun i => i.user == u && i.name == n)).length

/-- The database state after one iteration of the `_get_or_create_tags`
loop body: get-or-create the tag, then add it to the recipe. -/
def tagStep (u : Nat) (n : String) (rid : Nat) (db : Db) : Db :=
  { (Tag.getOrCreate db u n).2 with
    recipeTags := m2mAdd (Tag.getOrCreate db u n).2.recipeTags rid
      (Tag.getOrCreate db u n).1.id }

/-- The database state after one iteration of the
`_get_or_create_ingredients` loop body. -/
def ingredientStep (u : Nat) (n : String) (rid : Nat) (db : Db) : Db :=
  { (Ingredient.getOrCreate db u n).2 with
    recipeIngredients := m2mAdd (Ingredient.getOrCreate db u n).2.recipeIngredients rid
      (Ingredient.getOrCreate db u n).1.id }

/-- The recipe row inserted by `Recipe.objects.create(**validated_data)`
inside `RecipeSerializer.create`. -/
def RecipeSerializer.newRecipe (u : Nat) (cd : RecipeSerializer.CreateData)
    (db : Db) : Recipe :=
  { id := db.nextRecipeId, user := u, title := cd.title,
    time_minutes := cd.time_minutes, price := cd.price, link := cd.link,
    description := cd.description, image := none }

/-- The database right after `Recipe.objects.create(**validated_data)`. -/
def RecipeSerializer.createBase (u : Nat) (cd : RecipeSerializer.CreateData)
    (db : Db) : Db :=
  { db with recipes := db.recipes ++ [RecipeSerializer.newRecipe u cd db],
            nextRecipeId := db.nextRecipeId + 1 }

/-- The tags branch of `RecipeSerializer.update`: `if tags is not None:
instance.tags.clear(); self._get_or_create_tags(tags, instance)`. -/
def updTagStage (u rid : Nat) (ud : RecipeSerializer.UpdateData) (db : Db) : Db :=
  match ud.tags with
  | none => db
  | some tags =>
      RecipeSerializer.get_or_create_tags u tags rid
        { db with recipeTags := m2mClear db.recipeTags rid }

/-- The ingredients branch of `RecipeSerializer.update`. -/
def updIngStage (u rid : Nat) (ud : RecipeSerializer.UpdateData) (db : Db) : Db :=
  match ud.ingredients with
  | none => db
  | some ingredients =>
      RecipeSerializer.get_or_create_ingredients u ingredients rid
        { db with recipeIngredients := m2mClear db.recipeIngredients rid }

/-- An empty database, used to instantiate the theorems below on concrete
inputs. -/
def dbEmpty : Db := ⟨[], [], [], [], [], 0, 0, 0⟩

/-- A sample create payload carrying one tag name and one ingredient
name. -/
def cdSample : RecipeSerializer.CreateData :=
  { title := "Pie", time_minutes := 30, price := 500, link := "",
    description := "", tags := some ["Vegan"], ingredients := some ["Salt"] }

/-- A sample create payload whose `tags` and `ingredients` keys are
absent. -/
def cdNoKeys : RecipeSerializer.CreateData :=
  { title := "Soup", time_minutes := 10, price := 250, link := "",
    description := "", tags := none, ingredients := none }

/-- A sample update payload replacing the tag list and the ingredient
list. -/
def udSample : RecipeSerializer.UpdateData :=
  { title := none, time_minutes := none, price := none, link := none,
    description := none, tags := some ["Vegan"], ingredients := some ["Salt"] }

/-- A sample update payload whose `tags` key is absent and whose
`ingredients` value is the empty list. -/
def udMixed : RecipeSerializer.UpdateData :=
  { title := none, time_minutes := none, price := none, link := none,
    description := none, tags := none, ingredients := some [] }

theorem mem_m2mAdd {l : List (Nat × Nat)} {rid oid : Nat} {p : Nat × Nat} :
    p ∈ m2mAdd l rid oid ↔ p ∈ l ∨ p = (rid, oid) := by
  unfold m2mAdd
  split
  · constructor
    · exact Or.inl
    · rintro (h | rfl) <;> assumption
  · simp [List.mem_append]

theorem mem_m2mClear {l : List (Nat × Nat)} {rid : Nat} {p : Nat × Nat} :
    p ∈ m2mClear l rid ↔ p ∈ l ∧ p.1 ≠ rid := by
  simp [m2mClear, List.mem_filter]

theorem tagsUniq_unique {l : List Tag} (h : tagsUniq l) {a b : Tag}
    (ha : a ∈ l) (hb : b ∈ l) (hu : a.user = b.user) (hn : a.name = b.name) :
    a = b := by
  by_contra hne
  have hsym : Symmetric (fun a b : Tag => ¬(a.user = b.user ∧ a.name = b.name)) := by
    intro x y hxy hc
    exact hxy ⟨hc.1.symm, hc.2.symm⟩
  exact (h.forall hsym ha hb hne) ⟨hu, hn⟩

theorem ingredientsUniq_unique {l : List Ingredient} (h : ingredientsUniq l)
    {a b : Ingredient} (ha : a ∈ l) (hb : b ∈ l) (hu : a.user = b.user)
    (hn : a.name = b.name) : a = b := by
  by_contra hne
  have hsym : Symmetric (fun a b : Ingredient => ¬(a.user = b.user ∧ a.name = b.name)) := by
    intro x y hxy hc
    exact hxy ⟨hc.1.symm, hc.2.symm⟩
  exact (h.forall hsym ha hb hne) ⟨hu, hn⟩

theorem tagNameCount_eq_one {l : List Tag} (h : tagsUniq l) {t : Tag}
    (ht : t ∈ l) (hu : t.user = u) (hn : t.name = n) :
    tagNameCount l u n = 1 := by
  have hmem : t ∈ l.filter (fun t => t.user == u && t.name == n) := by
    rw [List.mem_filter]
    exact ⟨ht, by simp [hu, hn]⟩
  have hpw := h.filter (fun t => t.user == u && t.name == n)
  unfold tagNameCount
  match hf : l.filter (fun t => t.user == u && t.name == n) with
  | [] => rw [hf] at hmem; cases hmem
  | [x] => rw [hf]; rfl
  | x :: y :: rest =>
      exfalso
      rw [hf] at hpw
      have hx : x ∈ l.filter (fun t => t.user == u && t.name == n) := by
        rw [hf]; exact List.mem_cons_self _ _
      have hy : y ∈ l.filter (fun t => t.user == u && t.name == n) := by
        rw [hf]; exact List.mem_cons_of_mem _ (List.mem_cons_self _ _)
      rw [List.mem_filter] at hx hy
      have hxp := hx.2
      have hyp := hy.2
      simp only [Bool.and_eq_true, beq_iff_eq] at hxp hyp
      have := (List.pairwise_cons.mp hpw).1 y (List.mem_cons_self _ _)
      exact this ⟨hxp.1.trans hyp.1.symm, hxp.2.trans hyp.2.symm⟩

theorem ingredientNameCount_eq_one {l : List Ingredient}
    (h : ingredientsUniq l) {t : Ingredient} (ht : t ∈ l) (hu : t.user = u)
    (hn : t.name = n) : ingredientNameCount l u n = 1 := by
  have hmem : t ∈ l.filter (fun i => i.user == u && i.name == n) := by
    rw [List.mem_filter]
    exact ⟨ht, by simp [hu, hn]⟩
  have hpw := h.filter (fun i => i.user == u && i.name == n)
  unfold ingredientNameCount
  match hf : l.filter (fun i => i.user == u && i.name == n) with
  | [] => rw [hf] at hmem; cases hmem
  | [x] => rw [hf]; rfl
  | x :: y :: rest =>
      exfalso
      rw [hf] at hpw
      have hx : x ∈ l.filter (fun i => i.user == u && i.name == n) := by
        rw [hf]; exact List.mem_cons_self _ _
      have hy : y ∈ l.filter (fun i => i.user == u && i.name == n) := by
        rw [hf]; exact List.mem_cons_of_mem _ (List.mem_cons_self _ _)
      rw [List.mem_filter] at hx hy
      have hxp := hx.2
      have hyp := hy.2
      simp only [Bool.and_eq_true, beq_iff_eq] at hxp hyp
      have := (List.pairwise_cons.mp hpw).1 y (List.mem_cons_self _ _)
      exact this ⟨hxp.1.trans hyp.1.symm, hxp.2.trans hyp.2.symm⟩

/-! ### Lemmas about a single `get_or_create` step -/

theorem Tag.getOrCreate_spec (db : Db) (u : Nat) (n : String) :
    ((Tag.getOrCreate db u n).1 ∈ db.tags ∧ (Tag.getOrCreate db u n).2 = db) ∨
    ((∀ t ∈ db.tags, ¬(t.user = u ∧ t.name = n)) ∧
     (Tag.getOrCreate db u n).1 = ⟨db.nextTagId, u, n⟩ ∧
     (Tag.getOrCreate db u n).2 =
       { db with tags := db.tags ++ [⟨db.nextTagId, u, n⟩],
                 nextTagId := db.nextTagId + 1 }) := by
  unfold Tag.getOrCreate
  cases hf : db.tags.find? (fun t => t.user == u && t.name == n) with
  | some t => exact Or.inl ⟨List.mem_of_find?_eq_some hf, rfl⟩
  | none =>
      refine Or.inr ⟨?_, rfl, rfl⟩
      intro t ht hc
      have := List.find?_eq_none.mp hf t ht
      simp [hc.1, hc.2] at this

theorem Tag.getOrCreate_fst (db : Db) (u : Nat) (n : String) :
    (Tag.getOrCreate db u n).1.user = u ∧ (Tag.getOrCreate db u n).1.name = n := by
  unfold Tag.getOrCreate
  cases hf : db.tags.find? (fun t => t.user == u && t.name == n) with
  | some t =>
      have := List.find?_some hf
      simp only [Bool.and_eq_true, beq_iff_eq] at this
      exact this
  | none => exact ⟨rfl, rfl⟩

theorem Tag.getOrCreate_frame (db : Db) (u : Nat) (n : String) :
    (Tag.getOrCreate db u n).2.ingredients = db.ingredients ∧
    (Tag.getOrCreate db u n).2.recipeIngredients = db.recipeIngredients ∧
    (Tag.getOrCreate db u n).2.recipes = db.recipes ∧
    (Tag.getOrCreate db u n).2.recipeTags = db.recipeTags ∧
    (Tag.getOrCreate db u n).2.nextIngredientId = db.nextIngredientId ∧
    (Tag.getOrCreate db u n).2.nextRecipeId = db.nextRecipeId := by
  rcases Tag.getOrCreate_spec db u n with ⟨-, h2⟩ | ⟨-, -, h2⟩ <;>
    rw [h2] <;> exact ⟨rfl, rfl, rfl, rfl, rfl, rfl⟩

theorem Tag.getOrCreate_tags_sub (db : Db) (u : Nat) (n : String) :
    ∃ l, (Tag.getOrCreate db u n).2.tags = db.tags ++ l := by
  rcases Tag.getOrCreate_spec db u n with ⟨-, h2⟩ | ⟨-, -, h2⟩
  · exact ⟨[], by rw [h2, List.append_nil]⟩
  · exact ⟨[⟨db.nextTagId, u, n⟩], by rw [h2]⟩

theorem Tag.getOrCreate_fst_mem (db : Db) (u : Nat) (n : String) :
    (Tag.getOrCreate db u n).1 ∈ (Tag.getOrCreate db u n).2.tags := by
  rcases Tag.getOrCreate_spec db u n with ⟨h1, h2⟩ | ⟨-, h1, h2⟩
  · rw [h2]; exact h1
  · rw [h1, h2]; exact List.mem_append_right _ (List.mem_singleton_self _)

theorem Tag.getOrCreate_user_of_mem (db : Db) (u : Nat) (n : String) {t : Tag}
    (ht : t ∈ (Tag.getOrCreate db u n).2.tags) : t ∈ db.tags ∨ t.user = u := by
  rcases Tag.getOrCreate_spec db u n with ⟨-, h2⟩ | ⟨-, -, h2⟩
  · rw [h2] at ht; exact Or.inl ht
  · rw [h2] at ht
    rcases List.mem_append.mp ht with h | h
    · exact Or.inl h
    · rw [List.mem_singleton] at h
      subst h
      exact Or.inr rfl

theorem Tag.getOrCreate_uniq (db : Db) (u : Nat) (n : String)
    (h : tagsUniq db.tags) : tagsUniq (Tag.getOrCreate db u n).2.tags := by
  rcases Tag.getOrCreate_spec db u n with ⟨-, h2⟩ | ⟨hall, -, h2⟩
  · rw [h2]; exact h
  · rw [h2]
    unfold tagsUniq
    rw [List.pairwise_append]
    refine ⟨h, List.pairwise_singleton _ _, ?_⟩
    intro a ha b hb hc
    rw [List.mem_singleton] at hb
    subst hb
    exact hall a ha ⟨hc.1, hc.2⟩

theorem Ingredient.ingOrCreate_spec (db : Db) (u : Nat) (n : String) :
    ((Ingredient.getOrCreate db u n).1 ∈ db.ingredients ∧
     (Ingredient.getOrCreate db u n).2 = db) ∨
    ((∀ i ∈ db.ingredients, ¬(i.user = u ∧ i.name = n)) ∧
     (Ingredient.getOrCreate db u n).1 = ⟨db.nextIngredientId, u, n⟩ ∧
     (Ingredient.getOrCreate db u n).2 =
       { db with ingredients := db.ingredients ++ [⟨db.nextIngredientId, u, n⟩],
                 nextIngredientId := db.nextIngredientId + 1 }) := by
  unfold Ingredient.getOrCreate
  cases hf : db.ingredients.find? (fun i => i.user == u && i.name == n) with
  | some i => exact Or.inl ⟨List.mem_of_find?_eq_some hf, rfl⟩
  | none =>
      refine Or.inr ⟨?_, rfl, rfl⟩
      intro i hi hc
      have := List.find?_eq_none.mp hf i hi
      simp [hc.1, hc.2] at this

theorem Ingredient.ingOrCreate_fst (db : Db) (u : Nat) (n : String) :
    (Ingredient.getOrCreate db u n).1.user = u ∧
    (Ingredient.getOrCreate db u n).1.name = n := by
  unfold Ingredient.getOrCreate
  cases hf : db.ingredients.find? (fun i => i.user == u && i.name == n) with
  | some i =>
      have := List.find?_some hf
      simp only [Bool.and_eq_true, beq_iff_eq] at this
      exact this
  | none => exact ⟨rfl, rfl⟩

theorem Ingredient.ingOrCreate_frame (db : Db) (u : Nat) (n : String) :
    (Ingredient.getOrCreate db u n).2.tags = db.tags ∧
    (Ingredient.getOrCreate db u n).2.recipeTags = db.recipeTags ∧
    (Ingredient.getOrCreate db u n).2.recipes = db.recipes ∧
    (Ingredient.getOrCreate db u n).2.recipeIngredients = db.recipeIngredients ∧
    (Ingredient.getOrCreate db u n).2.nextTagId = db.nextTagId ∧
    (Ingredient.getOrCreate db u n).2.nextRecipeId = db.nextRecipeId := by
  rcases Ingredient.ingOrCreate_spec db u n with ⟨-, h2⟩ | ⟨-, -, h2⟩ <;>
    rw [h2] <;> exact ⟨rfl, rfl, rfl, rfl, rfl, rfl⟩

theorem Ingredient.getOrCreate_sub (db : Db) (u : Nat) (n : String) :
    ∃ l, (Ingredient.getOrCreate db u n).2.ingredients = db.ingredients ++ l := by
  rcases Ingredient.ingOrCreate_spec db u n with ⟨-, h2⟩ | ⟨-, -, h2⟩
  · exact ⟨[], by rw [h2, List.append_nil]⟩
  · exact ⟨[⟨db.nextIngredientId, u, n⟩], by rw [h2]⟩

theorem Ingredient.ingOrCreate_fst_mem (db : Db) (u : Nat) (n : String) :
    (Ingredient.getOrCreate db u n).1 ∈ (Ingredient.getOrCreate db u n).2.ingredients := by
  rcases Ingredient.ingOrCreate_spec db u n with ⟨h1, h2⟩ | ⟨-, h1, h2⟩
  · rw [h2]; exact h1
  · rw [h1, h2]; exact List.mem_append_right _ (List.mem_singleton_self _)

theorem Ingredient.ingOrCreate_user_of_mem (db : Db) (u : Nat) (n : String)
    {i : Ingredient} (hi : i ∈ (Ingredient.getOrCreate db u n).2.ingredients) :
    i ∈ db.ingredients ∨ i.user = u := by
  rcases Ingredient.ingOrCreate_spec db u n with ⟨-, h2⟩ | ⟨-, -, h2⟩
  · rw [h2] at hi; exact Or.inl hi
  · rw [h2] at hi
    rcases List.mem_append.mp hi with h | h
    · exact Or.inl h
    · rw [List.mem_singleton] at h
      subst h
      exact Or.inr rfl

theorem Ingredient.ingOrCreate_uniq (db : Db) (u : Nat) (n : String)
    (h : ingredientsUniq db.ingredients) :
    ingredientsUniq (Ingredient.getOrCreate db u n).2.ingredients := by
  rcases Ingredient.ingOrCreate_spec db u n with ⟨-, h2⟩ | ⟨hall, -, h2⟩
  · rw [h2]; exact h
  · rw [h2]
    unfold ingredientsUniq
    rw [List.pairwise_append]
    refine ⟨h, List.pairwise_singleton _ _, ?_⟩
    intro a ha b hb hc
    rw [List.mem_singleton] at hb
    subst hb
    exact hall a ha ⟨hc.1, hc.2⟩

/-! ### Lemmas about the `_get_or_create_tags` loop -/

theorem goc_tags_cons (u : Nat) (n : String) (rest : List String) (rid : Nat)
    (db : Db) :
    RecipeSerializer.get_or_create_tags u (n :: rest) rid db =
      RecipeSerializer.get_or_create_tags u rest rid (tagStep u n rid db) := rfl

theorem goc_tags_frame (u : Nat) (ns : List String) (rid : Nat) (db : Db) :
    (RecipeSerializer.get_or_create_tags u ns rid db).ingredients = db.ingredients ∧
    (RecipeSerializer.get_or_create_tags u ns rid db).recipeIngredients = db.recipeIngredients ∧
    (RecipeSerializer.get_or_create_tags u ns rid db).recipes = db.recipes ∧
    (RecipeSerializer.get_or_create_tags u ns rid db).nextIngredientId = db.nextIngredientId ∧
    (RecipeSerializer.get_or_create_tags u ns rid db).nextRecipeId = db.nextRecipeId := by
  induction ns generalizing db with
  | nil => exact ⟨rfl, rfl, rfl, rfl, rfl⟩
  | cons n rest ih =>
      rw [goc_tags_cons]
      rcases ih (tagStep u n rid db) with ⟨h1, h2, h3, h4, h5⟩
      rcases Tag.getOrCreate_frame db u n with ⟨g1, g2, g3, -, g5, g6⟩
      exact ⟨h1.trans g1, h2.trans g2, h3.trans g3, h4.trans g5, h5.trans g6⟩

theorem goc_tags_sub (u : Nat) (ns : List String) (rid : Nat) (db : Db) :
    ∃ l, (RecipeSerializer.get_or_create_tags u ns rid db).tags = db.tags ++ l := by
  induction ns generalizing db with
  | nil => exact ⟨[], (List.append_nil _).symm⟩
  | cons n rest ih =>
      rw [goc_tags_cons]
      obtain ⟨l1, hl1⟩ := ih (tagStep u n rid db)
      obtain ⟨l0, hl0⟩ := Tag.getOrCreate_tags_sub db u n
      refine ⟨l0 ++ l1, ?_⟩
      rw [hl1]
      show (Tag.getOrCreate db u n).2.tags ++ l1 = db.tags ++ (l0 ++ l1)
      rw [hl0, List.append_assoc]

theorem goc_tags_mem_mono (u : Nat) (ns : List String) (rid : Nat) (db : Db)
    {t : Tag} (ht : t ∈ db.tags) :
    t ∈ (RecipeSerializer.get_or_create_tags u ns rid db).tags := by
  obtain ⟨l, hl⟩ := goc_tags_sub u ns rid db
  rw [hl]
  exact List.mem_append_left _ ht

theorem goc_tags_links_mono (u : Nat) (ns : List String) (rid : Nat) (db : Db)
    {p : Nat × Nat} (hp : p ∈ db.recipeTags) :
    p ∈ (RecipeSerializer.get_or_create_tags u ns rid db).recipeTags := by
  revert hp
  induction ns generalizing db with
  | nil => exact fun hp => hp
  | cons n rest ih =>
      intro hp
      rw [goc_tags_cons]
      apply ih
      show p ∈ m2mAdd (Tag.getOrCreate db u n).2.recipeTags rid
        (Tag.getOrCreate db u n).1.id
      refine mem_m2mAdd.mpr (Or.inl ?_)
      rw [(Tag.getOrCreate_frame db u n).2.2.2.1]
      exact hp

theorem goc_tags_uniq (u : Nat) (ns : List String) (rid : Nat) (db : Db)
    (h : tagsUniq db.tags) :
    tagsUniq (RecipeSerializer.get_or_create_tags u ns rid db).tags := by
  revert h
  induction ns generalizing db with
  | nil => exact fun h => h
  | cons n rest ih =>
      intro h
      rw [goc_tags_cons]
      exact ih (tagStep u n rid db) (Tag.getOrCreate_uniq db u n h)

theorem goc_tags_user_of_mem (u : Nat) (ns : List String) (rid : Nat) (db : Db)
    {t : Tag} (ht : t ∈ (RecipeSerializer.get_or_create_tags u ns rid db).tags) :
    t ∈ db.tags ∨ t.user = u := by
  revert ht
  induction ns generalizing db with
  | nil => exact fun ht => Or.inl ht
  | cons n rest ih =>
      intro ht
      rw [goc_tags_cons] at ht
      rcases ih (tagStep u n rid db) ht with h | h
      · exact Tag.getOrCreate_user_of_mem db u n h
      · exact Or.inr h

theorem goc_tags_attach (u : Nat) (ns : List String) (rid : Nat) (db : Db) :
    ∀ n ∈ ns, ∃ t,
      t ∈ (RecipeSerializer.get_or_create_tags u ns rid db).tags ∧
      t.user = u ∧ t.name = n ∧
      (rid, t.id) ∈ (RecipeSerializer.get_or_create_tags u ns rid db).recipeTags := by
  induction ns generalizing db with
  | nil => intro n hn; exact absurd hn (List.not_mem_nil _)
  | cons m rest ih =>
      intro n hn
      rw [goc_tags_cons]
      rcases List.mem_cons.mp hn with rfl | hn'
      · refine ⟨(Tag.getOrCreate db u n).1, ?_, (Tag.getOrCreate_fst db u n).1,
          (Tag.getOrCreate_fst db u n).2, ?_⟩
        · exact goc_tags_mem_mono u rest rid _ (Tag.getOrCreate_fst_mem db u n)
        · apply goc_tags_links_mono
          show (rid, (Tag.getOrCreate db u n).1.id) ∈
            m2mAdd (Tag.getOrCreate db u n).2.recipeTags rid
              (Tag.getOrCreate db u n).1.id
          exact mem_m2mAdd.mpr (Or.inr rfl)
      · exact ih (tagStep u m rid db) n hn'

theorem goc_tags_link_char (u : Nat) (ns : List String) (rid : Nat) (db : Db)
    (h : tagsUniq db.tags) (r0 tid : Nat) :
    ((r0, tid) ∈ (RecipeSerializer.get_or_create_tags u ns rid db).recipeTags) ↔
      ((r0, tid) ∈ db.recipeTags ∨
       (r0 = rid ∧ ∃ t,
          t ∈ (RecipeSerializer.get_or_create_tags u ns rid db).tags ∧
          t.id = tid ∧ t.user = u ∧ t.name ∈ ns)) := by
  revert h
  induction ns generalizing db with
  | nil =>
      intro h
      constructor
      · exact fun hp => Or.inl hp
      · rintro (hp | ⟨-, t, -, -, -, hname⟩)
        · exact hp
        · exact absurd hname (List.not_mem_nil _)
  | cons n rest ih =>
      intro h
      rw [goc_tags_cons]
      have hfr : (Tag.getOrCreate db u n).2.recipeTags = db.recipeTags :=
        (Tag.getOrCreate_frame db u n).2.2.2.1
      have huniq2 : tagsUniq (tagStep u n rid db).tags :=
        Tag.getOrCreate_uniq db u n h
      rw [ih (tagStep u n rid db) huniq2]
      constructor
      · rintro (hp | ⟨hr, t, htmem, htid, htu, htn⟩)
        · have hp' : (r0, tid) ∈ m2mAdd (Tag.getOrCreate db u n).2.recipeTags rid
              (Tag.getOrCreate db u n).1.id := hp
          rcases mem_m2mAdd.mp hp' with hp2 | hp2
          · rw [hfr] at hp2
            exact Or.inl hp2
          · have hr : r0 = rid := congrArg Prod.fst hp2
            have hid : tid = (Tag.getOrCreate db u n).1.id := congrArg Prod.snd hp2
            refine Or.inr ⟨hr, (Tag.getOrCreate db u n).1, ?_, hid.symm,
              (Tag.getOrCreate_fst db u n).1, ?_⟩
            · exact goc_tags_mem_mono u rest rid _ (Tag.getOrCreate_fst_mem db u n)
            · rw [(Tag.getOrCreate_fst db u n).2]
              exact List.mem_cons_self _ _
        · exact Or.inr ⟨hr, t, htmem, htid, htu, List.mem_cons_of_mem _ htn⟩
      · rintro (hp | ⟨hr, t, htmem, htid, htu, htn⟩)
        · left
          show (r0, tid) ∈ m2mAdd (Tag.getOrCreate db u n).2.recipeTags rid
            (Tag.getOrCreate db u n).1.id
          refine mem_m2mAdd.mpr (Or.inl ?_)
          rw [hfr]
          exact hp
        · rcases List.mem_cons.mp htn with heq | hrest
          · left
            have ht0mem : (Tag.getOrCreate db u n).1 ∈
                (RecipeSerializer.get_or_create_tags u rest rid (tagStep u n rid db)).tags :=
              goc_tags_mem_mono u rest rid _ (Tag.getOrCreate_fst_mem db u n)
            have hfuniq : tagsUniq
                (RecipeSerializer.get_or_create_tags u rest rid (tagStep u n rid db)).tags :=
              goc_tags_uniq u rest rid _ huniq2
            have hteq : t = (Tag.getOrCreate db u n).1 :=
              tagsUniq_unique hfuniq htmem ht0mem
                (by rw [htu, (Tag.getOrCreate_fst db u n).1])
                (by rw [heq, (Tag.getOrCreate_fst db u n).2])
            show (r0, tid) ∈ m2mAdd (Tag.getOrCreate db u n).2.recipeTags rid
              (Tag.getOrCreate db u n).1.id
            refine mem_m2mAdd.mpr (Or.inr ?_)
            rw [hr, ← htid, hteq]
          · exact Or.inr ⟨hr, t, htmem, htid, htu, hrest⟩

/-! ### Lemmas about the `_get_or_create_ingredients` loop -/

theorem goc_ings_cons (u : Nat) (n : String) (rest : List String) (rid : Nat)
    (db : Db) :
    RecipeSerializer.get_or_create_ingredients u (n :: rest) rid db =
      RecipeSerializer.get_or_create_ingredients u rest rid (ingredientStep u n rid db) := rfl

theorem goc_ings_frame (u : Nat) (ns : List String) (rid : Nat) (db : Db) :
    (RecipeSerializer.get_or_create_ingredients u ns rid db).tags = db.tags ∧
    (RecipeSerializer.get_or_create_ingredients u ns rid db).recipeTags = db.recipeTags ∧
    (RecipeSerializer.get_or_create_ingredients u ns rid db).recipes = db.recipes ∧
    (RecipeSerializer.get_or_create_ingredients u ns rid db).nextTagId = db.nextTagId ∧
    (RecipeSerializer.get_or_create_ingredients u ns rid db).nextRecipeId = db.nextRecipeId := by
  induction ns generalizing db with
  | nil => exact ⟨rfl, rfl, rfl, rfl, rfl⟩
  | cons n rest ih =>
      rw [goc_ings_cons]
      rcases ih (ingredientStep u n rid db) with ⟨h1, h2, h3, h4, h5⟩
      rcases Ingredient.ingOrCreate_frame db u n with ⟨g1, g2, g3, -, g5, g6⟩
      exact ⟨h1.trans g1, h2.trans g2, h3.trans g3, h4.trans g5, h5.trans g6⟩

theorem goc_ings_sub (u : Nat) (ns : List String) (rid : Nat) (db : Db) :
    ∃ l, (RecipeSerializer.get_or_create_ingredients u ns rid db).ingredients =
      db.ingredients ++ l := by
  induction ns generalizing db with
  | nil => exact ⟨[], (List.append_nil _).symm⟩
  | cons n rest ih =>
      rw [goc_ings_cons]
      obtain ⟨l1, hl1⟩ := ih (ingredientStep u n rid db)
      obtain ⟨l0, hl0⟩ := Ingredient.getOrCreate_sub db u n
      refine ⟨l0 ++ l1, ?_⟩
      rw [hl1]
      show (Ingredient.getOrCreate db u n).2.ingredients ++ l1 = db.ingredients ++ (l0 ++ l1)
      rw [hl0, List.append_assoc]

theorem goc_ings_mem_mono (u : Nat) (ns : List String) (rid : Nat) (db : Db)
    {i : Ingredient} (hi : i ∈ db.ingredients) :
    i ∈ (RecipeSerializer.get_or_create_ingredients u ns rid db).ingredients := by
  obtain ⟨l, hl⟩ := goc_ings_sub u ns rid db
  rw [hl]
  exact List.mem_append_left _ hi

theorem goc_ings_links_mono (u : Nat) (ns : List String) (rid : Nat) (db : Db)
    {p : Nat × Nat} (hp : p ∈ db.recipeIngredients) :
    p ∈ (RecipeSerializer.get_or_create_ingredients u ns rid db).recipeIngredients := by
  revert hp
  induction ns generalizing db with
  | nil => exact fun hp => hp
  | cons n rest ih =>
      intro hp
      rw [goc_ings_cons]
      apply ih
      show p ∈ m2mAdd (Ingredient.getOrCreate db u n).2.recipeIngredients rid
        (Ingredient.getOrCreate db u n).1.id
      refine mem_m2mAdd.mpr (Or.inl ?_)
      rw [(Ingredient.ingOrCreate_frame db u n).2.2.2.1]
      exact hp

theorem goc_ings_uniq (u : Nat) (ns : List String) (rid : Nat) (db : Db)
    (h : ingredientsUniq db.ingredients) :
    ingredientsUniq (RecipeSerializer.get_or_create_ingredients u ns rid db).ingredients := by
  revert h
  induction ns generalizing db with
  | nil => exact fun h => h
  | cons n rest ih =>
      intro h
      rw [goc_ings_cons]
      exact ih (ingredientStep u n rid db) (Ingredient.ingOrCreate_uniq db u n h)

theorem goc_ings_user_of_mem (u : Nat) (ns : List String) (rid : Nat) (db : Db)
    {i : Ingredient}
    (hi : i ∈ (RecipeSerializer.get_or_create_ingredients u ns rid db).ingredients) :
    i ∈ db.ingredients ∨ i.user = u := by
  revert hi
  induction ns generalizing db with
  | nil => exact fun hi => Or.inl hi
  | cons n rest ih =>
      intro hi
      rw [goc_ings_cons] at hi
      rcases ih (ingredientStep u n rid db) hi with h | h
      · exact Ingredient.ingOrCreate_user_of_mem db u n h
      · exact Or.inr h

theorem goc_ings_attach (u : Nat) (ns : List String) (rid : Nat) (db : Db) :
    ∀ n ∈ ns, ∃ i,
      i ∈ (RecipeSerializer.get_or_create_ingredients u ns rid db).ingredients ∧
      i.user = u ∧ i.name = n ∧
      (rid, i.id) ∈ (RecipeSerializer.get_or_create_ingredients u ns rid db).recipeIngredients := by
  induction ns generalizing db with
  | nil => intro n hn; exact absurd hn (List.not_mem_nil _)
  | cons m rest ih =>
      intro n hn
      rw [goc_ings_cons]
      rcases List.mem_cons.mp hn with rfl | hn'
      · refine ⟨(Ingredient.getOrCreate db u n).1, ?_, (Ingredient.ingOrCreate_fst db u n).1,
          (Ingredient.ingOrCreate_fst db u n).2, ?_⟩
        · exact goc_ings_mem_mono u rest rid _ (Ingredient.ingOrCreate_fst_mem db u n)
        · apply goc_ings_links_mono
          show (rid, (Ingredient.getOrCreate db u n).1.id) ∈
            m2mAdd (Ingredient.getOrCreate db u n).2.recipeIngredients rid
              (Ingredient.getOrCreate db u n).1.id
          exact mem_m2mAdd.mpr (Or.inr rfl)
      · exact ih (ingredientStep u m rid db) n hn'

theorem goc_ings_link_char (u : Nat) (ns : List String) (rid : Nat) (db : Db)
    (h : ingredientsUniq db.ingredients) (r0 iid : Nat) :
    ((r0, iid) ∈ (RecipeSerializer.get_or_create_ingredients u ns rid db).recipeIngredients) ↔
      ((r0, iid) ∈ db.recipeIngredients ∨
       (r0 = rid ∧ ∃ i,
          i ∈ (RecipeSerializer.get_or_create_ingredients u ns rid db).ingredients ∧
          i.id = iid ∧ i.user = u ∧ i.name ∈ ns)) := by
  revert h
  induction ns generalizing db with
  | nil =>
      intro h
      constructor
      · exact fun hp => Or.inl hp
      · rintro (hp | ⟨-, i, -, -, -, hname⟩)
        · exact hp
        · exact absurd hname (List.not_mem_nil _)
  | cons n rest ih =>
      intro h
      rw [goc_ings_cons]
      have hfr : (Ingredient.getOrCreate db u n).2.recipeIngredients = db.recipeIngredients :=
        (Ingredient.ingOrCreate_frame db u n).2.2.2.1
      have huniq2 : ingredientsUniq (ingredientStep u n rid db).ingredients :=
        Ingredient.ingOrCreate_uniq db u n h
      rw [ih (ingredientStep u n rid db) huniq2]
      constructor
      · rintro (hp | ⟨hr, i, himem, hiid, hiu, hin⟩)
        · have hp' : (r0, iid) ∈ m2mAdd (Ingredient.getOrCreate db u n).2.recipeIngredients rid
              (Ingredient.getOrCreate db u n).1.id := hp
          rcases mem_m2mAdd.mp hp' with hp2 | hp2
          · rw [hfr] at hp2
            exact Or.inl hp2
          · have hr : r0 = rid := congrArg Prod.fst hp2
            have hid : iid = (Ingredient.getOrCreate db u n).1.id := congrArg Prod.snd hp2
            refine Or.inr ⟨hr, (Ingredient.getOrCreate db u n).1, ?_, hid.symm,
              (Ingredient.ingOrCreate_fst db u n).1, ?_⟩
            · exact goc_ings_mem_mono u rest rid _ (Ingredient.ingOrCreate_fst_mem db u n)
            · rw [(Ingredient.ingOrCreate_fst db u n).2]
              exact List.mem_cons_self _ _
        · exact Or.inr ⟨hr, i, himem, hiid, hiu, List.mem_cons_of_mem _ hin⟩
      · rintro (hp | ⟨hr, i, himem, hiid, hiu, hin⟩)
        · left
          show (r0, iid) ∈ m2mAdd (Ingredient.getOrCreate db u n).2.recipeIngredients rid
            (Ingredient.getOrCreate db u n).1.id
          refine mem_m2mAdd.mpr (Or.inl ?_)
          rw [hfr]
          exact hp
        · rcases List.mem_cons.mp hin with heq | hrest
          · left
            have hi0mem : (Ingredient.getOrCreate db u n).1 ∈
                (RecipeSerializer.get_or_create_ingredients u rest rid (ingredientStep u n rid db)).ingredients :=
              goc_ings_mem_mono u rest rid _ (Ingredient.ingOrCreate_fst_mem db u n)
            have hfuniq : ingredientsUniq
                (RecipeSerializer.get_or_create_ingredients u rest rid (ingredientStep u n rid db)).ingredients :=
              goc_ings_uniq u rest rid _ huniq2
            have hieq : i = (Ingredient.getOrCreate db u n).1 :=
              ingredientsUniq_unique hfuniq himem hi0mem
                (by rw [hiu, (Ingredient.ingOrCreate_fst db u n).1])
                (by rw [heq, (Ingredient.ingOrCreate_fst db u n).2])
            show (r0, iid) ∈ m2mAdd (Ingredient.getOrCreate db u n).2.recipeIngredients rid
              (Ingredient.getOrCreate db u n).1.id
            refine mem_m2mAdd.mpr (Or.inr ?_)
            rw [hr, ← hiid, hieq]
          · exact Or.inr ⟨hr, i, himem, hiid, hiu, hrest⟩

/-! ### Decomposition of `RecipeSerializer.create` and `.update` -/

theorem create_fst (u : Nat) (cd : RecipeSerializer.CreateData) (db : Db) :
    (RecipeSerializer.create u cd db).1 = RecipeSerializer.newRecipe u cd db := rfl

theorem create_snd (u : Nat) (cd : RecipeSerializer.CreateData) (db : Db) :
    (RecipeSerializer.create u cd db).2 =
      RecipeSerializer.get_or_create_ingredients u (cd.ingredients.getD [])
        db.nextRecipeId
        (RecipeSerializer.get_or_create_tags u (cd.tags.getD []) db.nextRecipeId
          (RecipeSerializer.createBase u cd db)) := rfl

theorem update_tags_eq (u rid : Nat) (ud : RecipeSerializer.UpdateData) (db : Db) :
    (RecipeSerializer.update u rid ud db).tags =
      (updIngStage u rid ud (updTagStage u rid ud db)).tags := rfl

theorem update_recipeTags_eq (u rid : Nat) (ud : RecipeSerializer.UpdateData) (db : Db) :
    (RecipeSerializer.update u rid ud db).recipeTags =
      (updIngStage u rid ud (updTagStage u rid ud db)).recipeTags := rfl

theorem update_ings_eq (u rid : Nat) (ud : RecipeSerializer.UpdateData) (db : Db) :
    (RecipeSerializer.update u rid ud db).ingredients =
      (updIngStage u rid ud (updTagStage u rid ud db)).ingredients := rfl

theorem update_recipeIngredients_eq (u rid : Nat) (ud : RecipeSerializer.UpdateData)
    (db : Db) :
    (RecipeSerializer.update u rid ud db).recipeIngredients =
      (updIngStage u rid ud (updTagStage u rid ud db)).recipeIngredients := rfl

theorem updTagStage_none (u rid : Nat) (ud : RecipeSerializer.UpdateData) (db : Db)
    (h : ud.tags = none) : updTagStage u rid ud db = db := by
  simp [updTagStage, h]

theorem updTagStage_some (u rid : Nat) (ud : RecipeSerializer.UpdateData) (db : Db)
    (ts : List String) (h : ud.tags = some ts) :
    updTagStage u rid ud db =
      RecipeSerializer.get_or_create_tags u ts rid
        { db with recipeTags := m2mClear db.recipeTags rid } := by
  simp [updTagStage, h]

theorem updIngStage_none (u rid : Nat) (ud : RecipeSerializer.UpdateData) (db : Db)
    (h : ud.ingredients = none) : updIngStage u rid ud db = db := by
  simp [updIngStage, h]

theorem updIngStage_some (u rid : Nat) (ud : RecipeSerializer.UpdateData) (db : Db)
    (ns : List String) (h : ud.ingredients = some ns) :
    updIngStage u rid ud db =
      RecipeSerializer.get_or_create_ingredients u ns rid
        { db with recipeIngredients := m2mClear db.recipeIngredients rid } := by
  simp [updIngStage, h]

theorem updTagStage_frame (u rid : Nat) (ud : RecipeSerializer.UpdateData) (db : Db) :
    (updTagStage u rid ud db).ingredients = db.ingredients ∧
    (updTagStage u rid ud db).recipeIngredients = db.recipeIngredients ∧
    (updTagStage u rid ud db).recipes = db.recipes := by
  cases h : ud.tags with
  | none => rw [updTagStage_none u rid ud db h]; exact ⟨rfl, rfl, rfl⟩
  | some ts =>
      rw [updTagStage_some u rid ud db ts h]
      have hf := goc_tags_frame u ts rid { db with recipeTags := m2mClear db.recipeTags rid }
      exact ⟨hf.1, hf.2.1, hf.2.2.1⟩

theorem updIngStage_frame (u rid : Nat) (ud : RecipeSerializer.UpdateData) (db : Db) :
    (updIngStage u rid ud db).tags = db.tags ∧
    (updIngStage u rid ud db).recipeTags = db.recipeTags ∧
    (updIngStage u rid ud db).recipes = db.recipes := by
  cases h : ud.ingredients with
  | none => rw [updIngStage_none u rid ud db h]; exact ⟨rfl, rfl, rfl⟩
  | some ns =>
      rw [updIngStage_some u rid ud db ns h]
      have hf := goc_ings_frame u ns rid
        { db with recipeIngredients := m2mClear db.recipeIngredients rid }
      exact ⟨hf.1, hf.2.1, hf.2.2.1⟩

theorem updTagStage_uniq (u rid : Nat) (ud : RecipeSerializer.UpdateData) (db : Db)
    (h : tagsUniq db.tags) : tagsUniq (updTagStage u rid ud db).tags := by
  cases hts : ud.tags with
  | none => rw [updTagStage_none u rid ud db hts]; exact h
  | some ts =>
      rw [updTagStage_some u rid ud db ts hts]
      exact goc_tags_uniq u ts rid _ h

theorem updIngStage_uniq (u rid : Nat) (ud : RecipeSerializer.UpdateData) (db : Db)
    (h : ingredientsUniq db.ingredients) :
    ingredientsUniq (updIngStage u rid ud db).ingredients := by
  cases his : ud.ingredients with
  | none => rw [updIngStage_none u rid ud db his]; exact h
  | some ns =>
      rw [updIngStage_some u rid ud db ns his]
      exact goc_ings_uniq u ns rid _ h

theorem updTagStage_user_of_mem (u rid : Nat) (ud : RecipeSerializer.UpdateData)
    (db : Db) {t : Tag} (ht : t ∈ (updTagStage u rid ud db).tags) :
    t ∈ db.tags ∨ t.user = u := by
  cases hts : ud.tags with
  | none => rw [updTagStage_none u rid ud db hts] at ht; exact Or.inl ht
  | some ts =>
      rw [updTagStage_some u rid ud db ts hts] at ht
      exact goc_tags_user_of_mem u ts rid
        { db with recipeTags := m2mClear db.recipeTags rid } ht

theorem updIngStage_user_of_mem (u rid : Nat) (ud : RecipeSerializer.UpdateData)
    (db : Db) {i : Ingredient}
    (hi : i ∈ (updIngStage u rid ud db).ingredients) :
    i ∈ db.ingredients ∨ i.user = u := by
  cases his : ud.ingredients with
  | none => rw [updIngStage_none u rid ud db his] at hi; exact Or.inl hi
  | some ns =>
      rw [updIngStage_some u rid ud db ns his] at hi
      exact goc_ings_user_of_mem u ns rid
        { db with recipeIngredients := m2mClear db.recipeIngredients rid } hi

theorem updTagStage_attach (u rid : Nat) (ud : RecipeSerializer.UpdateData)
    (db : Db) (ts : List String) (hts : ud.tags = some ts) :
    ∀ n ∈ ts, ∃ t,
      t ∈ (updTagStage u rid ud db).tags ∧ t.user = u ∧ t.name = n ∧
      (rid, t.id) ∈ (updTagStage u rid ud db).recipeTags := by
  rw [updTagStage_some u rid ud db ts hts]
  exact goc_tags_attach u ts rid _

theorem updIngStage_attach (u rid : Nat) (ud : RecipeSerializer.UpdateData)
    (db : Db) (ns : List String) (his : ud.ingredients = some ns) :
    ∀ n ∈ ns, ∃ i,
      i ∈ (updIngStage u rid ud db).ingredients ∧ i.user = u ∧ i.name = n ∧
      (rid, i.id) ∈ (updIngStage u rid ud db).recipeIngredients := by
  rw [updIngStage_some u rid ud db ns his]
  exact goc_ings_attach u ns rid _

/-! ### The claims -/

/-- Claim C5: the recipe list and tag list operations return exactly the
objects owned by the requesting user — an object is in the queryset if
and only if it is in the table and its `user` field is the authenticated
user, so no other user's objects ever appear. -/
theorem claim_C5_querysets_limited_to_user :
    (∀ (db : Db) (u : Nat) (t : Tag),
        t ∈ TagViewSet.get_queryset db u ↔ t ∈ db.tags ∧ t.user = u) ∧
    (∀ (db : Db) (u : Nat) (r : Recipe),
        r ∈ RecipeViewSet.get_queryset db u ↔ r ∈ db.recipes ∧ r.user = u) := by
  constructor
  · intro db u t
    simp [TagViewSet.get_queryset, List.mem_mergeSort, List.mem_filter]
  · intro db u r
    simp [RecipeViewSet.get_queryset, List.mem_mergeSort, List.mem_filter]

/-- Claim C9: list responses are deterministically ordered — the recipe
queryset is pairwise in descending order of id (`order_by('-id')`) and
the tag queryset pairwise in descending lexicographic order of name
(`order_by('-name')`). -/
theorem claim_C9_list_ordering :
    (∀ (db : Db) (u : Nat),
        (RecipeViewSet.get_queryset db u).Pairwise (fun a b => b.id ≤ a.id)) ∧
    (∀ (db : Db) (u : Nat),
        (TagViewSet.get_queryset db u).Pairwise (fun a b => b.name ≤ a.name)) := by
  constructor
  · intro db u
    have h := @List.sorted_mergeSort Recipe
      (fun a b => decide (b.id ≤ a.id))
      (fun a b c hab hbc => by
        simp only [decide_eq_true_eq] at hab hbc ⊢
        exact le_trans hbc hab)
      (fun a b => by
        simp only [Bool.or_eq_true, decide_eq_true_eq]
        exact le_total b.id a.id)
      (db.recipes.filter (fun r => r.user == u))
    exact h.imp (fun hab => of_decide_eq_true hab)
  · intro db u
    have h := @List.sorted_mergeSort Tag
      (fun a b => decide (b.name ≤ a.name))
      (fun a b c hab hbc => by
        simp only [decide_eq_true_eq] at hab hbc ⊢
        exact le_trans hbc hab)
      (fun a b => by
        simp only [Bool.or_eq_true, decide_eq_true_eq]
        exact le_total b.name a.name)
      (db.tags.filter (fun t => t.user == u))
    exact h.imp (fun hab => of_decide_eq_true hab)

/-- Claim C6: every exposed recipe and tag endpoint is guarded by token
authentication — a request with no valid credentials gets HTTP 401 and
the database is returned unmodified by all six endpoints. -/
theorem claim_C6_unauthenticated_requests_rejected :
    ∀ (db : Db) (cd : RecipeSerializer.CreateData) (rid : Nat)
      (ud : RecipeSerializer.UpdateData),
      tagListEndpoint none db = (401, db) ∧
      recipeListEndpoint none db = (401, db) ∧
      recipeCreateEndpoint none cd db = (401, db) ∧
      recipeRetrieveEndpoint none rid db = (401, db) ∧
      recipeUpdateEndpoint none rid ud db = (401, db) ∧
      recipeDestroyEndpoint none rid db = (401, db) :=
  fun _ _ _ _ => ⟨rfl, rfl, rfl, rfl, rfl, rfl⟩

/-- Claim C3 (refuted by the code): `TagViewSet` subclasses only
`ListModelMixin` and `GenericViewSet`, so the tag API exposes the `list`
action and none of create, retrieve, update or destroy — contradicting
the claim (and the repository's own `test_update_tag` / `test_delete_tag`
tests, which PATCH and DELETE a tag detail URL and expect success). -/
theorem claim_C3_tag_viewset_list_only :
    TagViewSet.actions = ["list"] ∧
    "create" ∉ TagViewSet.actions ∧
    "retrieve" ∉ TagViewSet.actions ∧
    "update" ∉ TagViewSet.actions ∧
    "destroy" ∉ TagViewSet.actions := by
  refine ⟨rfl, ?_, ?_, ?_, ?_⟩ <;> decide

/-- Claim C4 (refuted by the code): although `RecipeImageSerializer` is
defined (with `image` required) and documented as the serializer for
uploading images, `RecipeViewSet` declares no extra action beyond the
five `ModelViewSet` CRUD actions, so no exposed endpoint accepts an image
upload. -/
theorem claim_C4_no_upload_image_action :
    "upload_image" ∉ RecipeViewSet.actions ∧
    RecipeViewSet.actions =
      ["list", "create", "retrieve", "update", "partial_update", "destroy"] ∧
    RecipeImageSerializer.imageRequired = true := by
  exact ⟨by decide, rfl, rfl⟩

/-- Claim C10: a create request whose payload has no `tags` and no
`ingredients` key succeeds: both default to the empty list, the recipe
row is created from the remaining validated fields with the owner `u`,
and the tag table, ingredient table and both association tables are left
exactly as they were. -/
theorem claim_C10_create_without_related_keys (u : Nat)
    (cd : RecipeSerializer.CreateData) (db : Db)
    (htags : cd.tags = none) (hings : cd.ingredients = none) :
    RecipeSerializer.create u cd db =
      (RecipeSerializer.newRecipe u cd db,
       { db with recipes := db.recipes ++ [RecipeSerializer.newRecipe u cd db],
                 nextRecipeId := db.nextRecipeId + 1 }) ∧
    (RecipeSerializer.create u cd db).1.user = u ∧
    (RecipeSerializer.create u cd db).2.tags = db.tags ∧
    (RecipeSerializer.create u cd db).2.ingredients = db.ingredients ∧
    (RecipeSerializer.create u cd db).2.recipeTags = db.recipeTags ∧
    (RecipeSerializer.create u cd db).2.recipeIngredients = db.recipeIngredients := by
  have h : RecipeSerializer.create u cd db =
      (RecipeSerializer.newRecipe u cd db,
       { db with recipes := db.recipes ++ [RecipeSerializer.newRecipe u cd db],
                 nextRecipeId := db.nextRecipeId + 1 }) := by
    unfold RecipeSerializer.create
    rw [htags, hings]
    rfl
  rw [h]
  exact ⟨rfl, rfl, rfl, rfl, rfl, rfl⟩

/-- Witness for C10 at a concrete payload with both keys absent. -/
theorem claim_C10_witness :
    cdNoKeys.tags = none ∧ cdNoKeys.ingredients = none ∧
    RecipeSerializer.create 1 cdNoKeys dbEmpty =
      (RecipeSerializer.newRecipe 1 cdNoKeys dbEmpty,
       { dbEmpty with
           recipes := dbEmpty.recipes ++ [RecipeSerializer.newRecipe 1 cdNoKeys dbEmpty],
           nextRecipeId := dbEmpty.nextRecipeId + 1 }) :=
  ⟨rfl, rfl, (claim_C10_create_without_related_keys 1 cdNoKeys dbEmpty rfl rfl).1⟩

/-- Claim C7: the owner of everything created through the API is the
authenticated request user: the recipe created by
`RecipeViewSet.perform_create` carries `user = request.user`, every tag or
ingredient row that appears during a recipe create or update was either
already present or is owned by the request user, and
`TagViewSet.perform_create` likewise assigns the request user.  The
payload types carry no user field (the serializers expose none), so the
client cannot assign ownership; each row's single `user` field makes the
owner unique. -/
theorem claim_C7_owner_is_request_user :
    (∀ (u : Nat) (cd : RecipeSerializer.CreateData) (db : Db),
        (RecipeViewSet.perform_create u cd db).1.user = u ∧
        (∀ t ∈ (RecipeViewSet.perform_create u cd db).2.tags,
            t ∈ db.tags ∨ t.user = u) ∧
        (∀ i ∈ (RecipeViewSet.perform_create u cd db).2.ingredients,
            i ∈ db.ingredients ∨ i.user = u)) ∧
    (∀ (u : Nat) (n : String) (db : Db),
        (TagViewSet.perform_create u n db).1.user = u ∧
        (∀ t ∈ (TagViewSet.perform_create u n db).2.tags,
            t ∈ db.tags ∨ t.user = u)) ∧
    (∀ (u rid : Nat) (ud : RecipeSerializer.UpdateData) (db : Db),
        (∀ t ∈ (RecipeSerializer.update u rid ud db).tags,
            t ∈ db.tags ∨ t.user = u) ∧
        (∀ i ∈ (RecipeSerializer.update u rid ud db).ingredients,
            i ∈ db.ingredients ∨ i.user = u)) := by
  refine ⟨?_, ?_, ?_⟩
  · intro u cd db
    have hpc : RecipeViewSet.perform_create u cd db =
        RecipeSerializer.create u cd db := rfl
    refine ⟨rfl, ?_, ?_⟩
    · intro t ht
      rw [hpc, create_snd,
        (goc_ings_frame u (cd.ingredients.getD []) db.nextRecipeId _).1] at ht
      rcases goc_tags_user_of_mem u (cd.tags.getD []) db.nextRecipeId
        (RecipeSerializer.createBase u cd db) ht with h | h
      · exact Or.inl h
      · exact Or.inr h
    · intro i hi
      rw [hpc, create_snd] at hi
      rcases goc_ings_user_of_mem u (cd.ingredients.getD []) db.nextRecipeId
        (RecipeSerializer.get_or_create_tags u (cd.tags.getD []) db.nextRecipeId
          (RecipeSerializer.createBase u cd db)) hi with h | h
      · rw [(goc_tags_frame u (cd.tags.getD []) db.nextRecipeId _).1] at h
        exact Or.inl h
      · exact Or.inr h
  · intro u n db
    refine ⟨rfl, ?_⟩
    intro t ht
    have ht' : t ∈ db.tags ++ [(⟨db.nextTagId, u, n⟩ : Tag)] := ht
    rcases List.mem_append.mp ht' with h | h
    · exact Or.inl h
    · rw [List.mem_singleton] at h
      subst h
      exact Or.inr rfl
  · intro u rid ud db
    constructor
    · intro t ht
      rw [update_tags_eq, (updIngStage_frame u rid ud _).1] at ht
      exact updTagStage_user_of_mem u rid ud db ht
    · intro i hi
      rw [update_ings_eq] at hi
      rcases updIngStage_user_of_mem u rid ud (updTagStage u rid ud db) hi with h | h
      · rw [(updTagStage_frame u rid ud db).1] at h
        exact Or.inl h
      · exact Or.inr h

/-- Witness for C7: on an empty database the created recipe is owned by
user 1, and the tag created alongside it is new and owned by user 1. -/
theorem claim_C7_witness :
    (RecipeViewSet.perform_create 1 cdSample dbEmpty).1.user = 1 ∧
    (⟨0, 1, "Vegan"⟩ : Tag) ∈ (RecipeViewSet.perform_create 1 cdSample dbEmpty).2.tags ∧
    ((⟨0, 1, "Vegan"⟩ : Tag) ∈ dbEmpty.tags ∨ (⟨0, 1, "Vegan"⟩ : Tag).user = 1) := by
  refine ⟨(claim_C7_owner_is_request_user.1 1 cdSample dbEmpty).1, by decide, ?_⟩
  exact (claim_C7_owner_is_request_user.1 1 cdSample dbEmpty).2.1
    ⟨0, 1, "Vegan"⟩ (by decide)

/-- Claim C8: in an update, an absent `tags` (resp. `ingredients`) key
leaves that relation completely untouched, while an explicit empty list
clears exactly the recipe's rows of that relation; each conclusion holds
for arbitrary payloads, so the handling of one relation never affects the
other. -/
theorem claim_C8_omitted_key_vs_empty_list (u rid : Nat)
    (ud : RecipeSerializer.UpdateData) (db : Db) :
    (ud.tags = none →
        (RecipeSerializer.update u rid ud db).tags = db.tags ∧
        (RecipeSerializer.update u rid ud db).recipeTags = db.recipeTags) ∧
    (ud.tags = some [] →
        (RecipeSerializer.update u rid ud db).tags = db.tags ∧
        (RecipeSerializer.update u rid ud db).recipeTags = m2mClear db.recipeTags rid ∧
        ∀ tid, (rid, tid) ∉ (RecipeSerializer.update u rid ud db).recipeTags) ∧
    (ud.ingredients = none →
        (RecipeSerializer.update u rid ud db).ingredients = db.ingredients ∧
        (RecipeSerializer.update u rid ud db).recipeIngredients = db.recipeIngredients) ∧
    (ud.ingredients = some [] →
        (RecipeSerializer.update u rid ud db).ingredients = db.ingredients ∧
        (RecipeSerializer.update u rid ud db).recipeIngredients =
          m2mClear db.recipeIngredients rid ∧
        ∀ iid, (rid, iid) ∉ (RecipeSerializer.update u rid ud db).recipeIngredients) := by
  refine ⟨?_, ?_, ?_, ?_⟩
  · intro h
    constructor
    · rw [update_tags_eq, (updIngStage_frame u rid ud _).1,
        updTagStage_none u rid ud db h]
    · rw [update_recipeTags_eq, (updIngStage_frame u rid ud _).2.1,
        updTagStage_none u rid ud db h]
  · intro h
    have hx : updTagStage u rid ud db =
        { db with recipeTags := m2mClear db.recipeTags rid } := by
      rw [updTagStage_some u rid ud db [] h]
      rfl
    refine ⟨?_, ?_, ?_⟩
    · rw [update_tags_eq, (updIngStage_frame u rid ud _).1, hx]
    · rw [update_recipeTags_eq, (updIngStage_frame u rid ud _).2.1, hx]
    · intro tid hmem
      rw [update_recipeTags_eq, (updIngStage_frame u rid ud _).2.1, hx] at hmem
      exact (mem_m2mClear.mp hmem).2 rfl
  · intro h
    constructor
    · rw [update_ings_eq, updIngStage_none u rid ud _ h,
        (updTagStage_frame u rid ud db).1]
    · rw [update_recipeIngredients_eq, updIngStage_none u rid ud _ h,
        (updTagStage_frame u rid ud db).2.1]
  · intro h
    have hx : updIngStage u rid ud (updTagStage u rid ud db) =
        { updTagStage u rid ud db with
          recipeIngredients :=
            m2mClear (updTagStage u rid ud db).recipeIngredients rid } := by
      rw [updIngStage_some u rid ud _ [] h]
      rfl
    refine ⟨?_, ?_, ?_⟩
    · rw [update_ings_eq, hx]
      exact (updTagStage_frame u rid ud db).1
    · rw [update_recipeIngredients_eq, hx]
      show m2mClear (updTagStage u rid ud db).recipeIngredients rid =
        m2mClear db.recipeIngredients rid
      rw [(updTagStage_frame u rid ud db).2.1]
    · intro iid hmem
      rw [update_recipeIngredients_eq, hx] at hmem
      exact (mem_m2mClear.mp hmem).2 rfl

/-- Witness for C8 at a payload whose `tags` key is absent and whose
`ingredients` value is the empty list. -/
theorem claim_C8_witness :
    udMixed.tags = none ∧ udMixed.ingredients = some [] ∧
    (RecipeSerializer.update 1 3 udMixed dbEmpty).tags = dbEmpty.tags ∧
    (RecipeSerializer.update 1 3 udMixed dbEmpty).recipeTags = dbEmpty.recipeTags ∧
    (RecipeSerializer.update 1 3 udMixed dbEmpty).ingredients = dbEmpty.ingredients ∧
    (RecipeSerializer.update 1 3 udMixed dbEmpty).recipeIngredients =
      m2mClear dbEmpty.recipeIngredients 3 ∧
    (3, 7) ∉ (RecipeSerializer.update 1 3 udMixed dbEmpty).recipeIngredients := by
  have h := claim_C8_omitted_key_vs_empty_list 1 3 udMixed dbEmpty
  exact ⟨rfl, rfl, (h.1 rfl).1, (h.1 rfl).2, (h.2.2.2 rfl).1,
    (h.2.2.2 rfl).2.1, (h.2.2.2 rfl).2.2 7⟩

/-- Claim C1: recipe create and update reconcile the submitted tag and
ingredient names against a per-user deduplicated set.  If no two tags and
no two ingredients share a (user, name) pair beforehand, then after either
operation the invariant still holds; moreover for each submitted name
there is a tag (resp. ingredient) with that (user, name) pair attached to
the recipe, and exactly one row with that pair exists — so an existing
row is reused and otherwise exactly one new row is created. -/
theorem claim_C1_get_or_create_preserves_uniqueness
    (u rid : Nat) (cd : RecipeSerializer.CreateData)
    (ud : RecipeSerializer.UpdateData) (db : Db)
    (htu : tagsUniq db.tags) (hiu : ingredientsUniq db.ingredients) :
    (tagsUniq (RecipeSerializer.create u cd db).2.tags ∧
     ingredientsUniq (RecipeSerializer.create u cd db).2.ingredients ∧
     (∀ n ∈ cd.tags.getD [], ∃ t,
        t ∈ (RecipeSerializer.create u cd db).2.tags ∧ t.user = u ∧ t.name = n ∧
        ((RecipeSerializer.create u cd db).1.id, t.id) ∈
          (RecipeSerializer.create u cd db).2.recipeTags ∧
        tagNameCount (RecipeSerializer.create u cd db).2.tags u n = 1) ∧
     (∀ n ∈ cd.ingredients.getD [], ∃ i,
        i ∈ (RecipeSerializer.create u cd db).2.ingredients ∧ i.user = u ∧ i.name = n ∧
        ((RecipeSerializer.create u cd db).1.id, i.id) ∈
          (RecipeSerializer.create u cd db).2.recipeIngredients ∧
        ingredientNameCount (RecipeSerializer.create u cd db).2.ingredients u n = 1)) ∧
    (tagsUniq (RecipeSerializer.update u rid ud db).tags ∧
     ingredientsUniq (RecipeSerializer.update u rid ud db).ingredients ∧
     (∀ ts, ud.tags = some ts → ∀ n ∈ ts, ∃ t,
        t ∈ (RecipeSerializer.update u rid ud db).tags ∧ t.user = u ∧ t.name = n ∧
        (rid, t.id) ∈ (RecipeSerializer.update u rid ud db).recipeTags ∧
        tagNameCount (RecipeSerializer.update u rid ud db).tags u n = 1) ∧
     (∀ ns, ud.ingredients = some ns → ∀ n ∈ ns, ∃ i,
        i ∈ (RecipeSerializer.update u rid ud db).ingredients ∧ i.user = u ∧ i.name = n ∧
        (rid, i.id) ∈ (RecipeSerializer.update u rid ud db).recipeIngredients ∧
        ingredientNameCount (RecipeSerializer.update u rid ud db).ingredients u n = 1)) := by
  have hbase : tagsUniq (RecipeSerializer.createBase u cd db).tags := htu
  have hbasei : ingredientsUniq (RecipeSerializer.createBase u cd db).ingredients := hiu
  have h2u : tagsUniq
      (RecipeSerializer.get_or_create_tags u (cd.tags.getD []) db.nextRecipeId
        (RecipeSerializer.createBase u cd db)).tags :=
    goc_tags_uniq u (cd.tags.getD []) db.nextRecipeId _ hbase
  have h2i : ingredientsUniq
      (RecipeSerializer.get_or_create_tags u (cd.tags.getD []) db.nextRecipeId
        (RecipeSerializer.createBase u cd db)).ingredients := by
    rw [(goc_tags_frame u (cd.tags.getD []) db.nextRecipeId _).1]
    exact hbasei
  constructor
  · refine ⟨?_, ?_, ?_, ?_⟩
    · rw [create_snd, (goc_ings_frame u (cd.ingredients.getD []) db.nextRecipeId _).1]
      exact h2u
    · rw [create_snd]
      exact goc_ings_uniq u (cd.ingredients.getD []) db.nextRecipeId _ h2i
    · intro n hn
      obtain ⟨t, htm, htuu, htn, htl⟩ :=
        goc_tags_attach u (cd.tags.getD []) db.nextRecipeId
          (RecipeSerializer.createBase u cd db) n hn
      have htm3 : t ∈ (RecipeSerializer.create u cd db).2.tags := by
        rw [create_snd, (goc_ings_frame u (cd.ingredients.getD []) db.nextRecipeId _).1]
        exact htm
      refine ⟨t, htm3, htuu, htn, ?_, ?_⟩
      · rw [create_fst, create_snd,
          (goc_ings_frame u (cd.ingredients.getD []) db.nextRecipeId _).2.1]
        exact htl
      · rw [create_snd, (goc_ings_frame u (cd.ingredients.getD []) db.nextRecipeId _).1]
        exact tagNameCount_eq_one h2u htm htuu htn
    · intro n hn
      obtain ⟨i, him, hiuu, hin, hil⟩ :=
        goc_ings_attach u (cd.ingredients.getD []) db.nextRecipeId
          (RecipeSerializer.get_or_create_tags u (cd.tags.getD []) db.nextRecipeId
            (RecipeSerializer.createBase u cd db)) n hn
      have him3 : i ∈ (RecipeSerializer.create u cd db).2.ingredients := by
        rw [create_snd]
        exact him
      refine ⟨i, him3, hiuu, hin, ?_, ?_⟩
      · rw [create_fst, create_snd]
        exact hil
      · rw [create_snd]
        exact ingredientNameCount_eq_one
          (goc_ings_uniq u (cd.ingredients.getD []) db.nextRecipeId _ h2i) him hiuu hin
  · have hXu : tagsUniq (updTagStage u rid ud db).tags :=
      updTagStage_uniq u rid ud db htu
    have hXi : ingredientsUniq (updTagStage u rid ud db).ingredients := by
      rw [(updTagStage_frame u rid ud db).1]
      exact hiu
    refine ⟨?_, ?_, ?_, ?_⟩
    · rw [update_tags_eq, (updIngStage_frame u rid ud _).1]
      exact hXu
    · rw [update_ings_eq]
      exact updIngStage_uniq u rid ud _ hXi
    · intro ts hts n hn
      obtain ⟨t, htm, htuu, htn, htl⟩ := updTagStage_attach u rid ud db ts hts n hn
      have htm2 : t ∈ (RecipeSerializer.update u rid ud db).tags := by
        rw [update_tags_eq, (updIngStage_frame u rid ud _).1]
        exact htm
      refine ⟨t, htm2, htuu, htn, ?_, ?_⟩
      · rw [update_recipeTags_eq, (updIngStage_frame u rid ud _).2.1]
        exact htl
      · rw [update_tags_eq, (updIngStage_frame u rid ud _).1]
        exact tagNameCount_eq_one hXu htm htuu htn
    · intro ns his n hn
      obtain ⟨i, him, hiuu, hin, hil⟩ :=
        updIngStage_attach u rid ud (updTagStage u rid ud db) ns his n hn
      have him2 : i ∈ (RecipeSerializer.update u rid ud db).ingredients := by
        rw [update_ings_eq]
        exact him
      refine ⟨i, him2, hiuu, hin, ?_, ?_⟩
      · rw [update_recipeIngredients_eq]
        exact hil
      · rw [update_ings_eq]
        exact ingredientNameCount_eq_one (updIngStage_uniq u rid ud _ hXi) him hiuu hin

/-- Witness for C1 on an empty database: creating a recipe with tag
"Vegan" and ingredient "Salt", and updating recipe 5 with tag "Vegan",
each leave exactly one (1, name) row, attached to the recipe. -/
theorem claim_C1_witness :
    tagsUniq dbEmpty.tags ∧ ingredientsUniq dbEmpty.ingredients ∧
    tagsUniq (RecipeSerializer.create 1 cdSample dbEmpty).2.tags ∧
    (∃ t, t ∈ (RecipeSerializer.create 1 cdSample dbEmpty).2.tags ∧ t.user = 1 ∧
      t.name = "Vegan" ∧
      ((RecipeSerializer.create 1 cdSample dbEmpty).1.id, t.id) ∈
        (RecipeSerializer.create 1 cdSample dbEmpty).2.recipeTags ∧
      tagNameCount (RecipeSerializer.create 1 cdSample dbEmpty).2.tags 1 "Vegan" = 1) ∧
    (∃ i, i ∈ (RecipeSerializer.create 1 cdSample dbEmpty).2.ingredients ∧ i.user = 1 ∧
      i.name = "Salt" ∧
      ((RecipeSerializer.create 1 cdSample dbEmpty).1.id, i.id) ∈
        (RecipeSerializer.create 1 cdSample dbEmpty).2.recipeIngredients ∧
      ingredientNameCount (RecipeSerializer.create 1 cdSample dbEmpty).2.ingredients
        1 "Salt" = 1) ∧
    (∃ t, t ∈ (RecipeSerializer.update 1 5 udSample dbEmpty).tags ∧ t.user = 1 ∧
      t.name = "Vegan" ∧
      (5, t.id) ∈ (RecipeSerializer.update 1 5 udSample dbEmpty).recipeTags ∧
      tagNameCount (RecipeSerializer.update 1 5 udSample dbEmpty).tags 1 "Vegan" = 1) := by
  have h := claim_C1_get_or_create_preserves_uniqueness 1 5 cdSample udSample dbEmpty
    List.Pairwise.nil List.Pairwise.nil
  exact ⟨List.Pairwise.nil, List.Pairwise.nil, h.1.1,
    h.1.2.2.1 "Vegan" (by decide), h.1.2.2.2 "Salt" (by decide),
    h.2.2.2.1 ["Vegan"] rfl "Vegan" (by decide)⟩

/-- Claim C2: an update whose payload contains a tags (resp. ingredients)
list ends with the recipe associated to exactly the rows resolving the
submitted names for the requesting user — a pair (rid, id) is in the
association table if and only if some row with that id, owned by the user
and named by a submitted name, is in the table; no leftover association
survives. -/
theorem claim_C2_update_sets_exact_collections
    (u rid : Nat) (ud : RecipeSerializer.UpdateData) (db : Db)
    (htu : tagsUniq db.tags) (hiu : ingredientsUniq db.ingredients) :
    (∀ ts, ud.tags = some ts → ∀ tid,
        ((rid, tid) ∈ (RecipeSerializer.update u rid ud db).recipeTags ↔
         ∃ t, t ∈ (RecipeSerializer.update u rid ud db).tags ∧
           t.id = tid ∧ t.user = u ∧ t.name ∈ ts)) ∧
    (∀ ns, ud.ingredients = some ns → ∀ iid,
        ((rid, iid) ∈ (RecipeSerializer.update u rid ud db).recipeIngredients ↔
         ∃ i, i ∈ (RecipeSerializer.update u rid ud db).ingredients ∧
           i.id = iid ∧ i.user = u ∧ i.name ∈ ns)) := by
  constructor
  · intro ts hts tid
    rw [update_recipeTags_eq, (updIngStage_frame u rid ud _).2.1,
        update_tags_eq, (updIngStage_frame u rid ud _).1,
        updTagStage_some u rid ud db ts hts]
    rw [goc_tags_link_char u ts rid
        { db with recipeTags := m2mClear db.recipeTags rid } htu rid tid]
    constructor
    · rintro (hp | ⟨-, t, h1, h2, h3, h4⟩)
      · exact ((mem_m2mClear.mp hp).2 rfl).elim
      · exact ⟨t, h1, h2, h3, h4⟩
    · rintro ⟨t, h1, h2, h3, h4⟩
      exact Or.inr ⟨rfl, t, h1, h2, h3, h4⟩
  · intro ns his iid
    have hXi : ingredientsUniq (updTagStage u rid ud db).ingredients := by
      rw [(updTagStage_frame u rid ud db).1]
      exact hiu
    rw [update_recipeIngredients_eq, update_ings_eq,
        updIngStage_some u rid ud _ ns his]
    rw [goc_ings_link_char u ns rid
        { updTagStage u rid ud db with
          recipeIngredients :=
            m2mClear (updTagStage u rid ud db).recipeIngredients rid }
        hXi rid iid]
    constructor
    · rintro (hp | ⟨-, i, h1, h2, h3, h4⟩)
      · exact ((mem_m2mClear.mp hp).2 rfl).elim
      · exact ⟨i, h1, h2, h3, h4⟩
    · rintro ⟨i, h1, h2, h3, h4⟩
      exact Or.inr ⟨rfl, i, h1, h2, h3, h4⟩

/-- Witness for C2 on an empty database: after updating recipe 5 with the
tag list ["Vegan"], the association (5, 0) is present exactly because tag
0 is user 1's "Vegan" tag. -/
theorem claim_C2_witness :
    (5, 0) ∈ (RecipeSerializer.update 1 5 udSample dbEmpty).recipeTags ↔
      ∃ t, t ∈ (RecipeSerializer.update 1 5 udSample dbEmpty).tags ∧
        t.id = 0 ∧ t.user = 1 ∧ t.name ∈ ["Vegan"] :=
  (claim_C2_update_sets_exact_collections 1 5 udSample dbEmpty
    List.Pairwise.nil List.Pairwise.nil).1 ["Vegan"] rfl 0

end RecipeApp
